import Mathlib

/-!
Verification development for the nitro build-time policy layer.

The definitions below are a shallow embedding of:
  - the server-handlers virtual-module generator
    (`src/rollup/plugins/handlers.ts`, given as `src/unnamed/part_000`):
    handler-table composition, method inference from the handler-path
    suffix, eager/lazy import partitioning, the emitted dispatch rows,
    and the debug-mode diagnostic dump (the module-level mutable
    `lastDump` is modelled as explicit state);
  - the rollup configuration (`src/src/rollup/config.ts`): the
    `chunkNamePrefixes` table and `getChunkName`, and the strict
    `no-externals` plugin's `resolveId` hook.

Modelling conventions:
  - JavaScript strings are Lean `String`s, operated on through their
    `List Char` data.  `jsStartsWith` / `jsEndsWith` model
    `String.prototype.startsWith` / `endsWith`; `slice(0, 6)` is
    modelled as `List.take 6` on the character list.
  - Optional JS values (`undefined`) are `Option`; JS truthiness tests
    on strings and booleans are `jsTruthyStr` / `jsTruthyB`.
  - External libraries that the source calls are not re-implemented:
    `hash` (from `ohash`) is a function parameter, the `table`
    renderer behind `dumpHandler` is abstracted as a `dump` function
    parameter, rollup's own `this.resolve` is the `primary` oracle and
    exsolve's `resolveModulePath` is the `fallback` oracle (it receives
    the exact argument record the source builds, so the theorems can
    talk about which query is issued).
  - `pathe.join` is modelled for already-normalized directory paths
    (no `.`/`..` segments): it appends with a single `/` separator.
  - `node:path.isAbsolute` is modelled for posix paths and
    `pathToFileURL` as prepending `file://`; the claims only depend on
    the importer-derived entry being placed ahead of the configured
    module directories.
-/

set_option autoImplicit false

namespace NitroSpec

/-! ### JS string primitives -/

/-- Models `pattern` being a prefix of the character list `s`
(JS `s.startsWith(pattern)` at the character level). -/
def listStarts : List Char → List Char → Bool
  | [], _ => true
  | _ :: _, [] => false
  | p :: ps, c :: cs => p = c && listStarts ps cs

/-- Models JS `s.startsWith(pat)`. -/
def jsStartsWith (s pat : String) : Bool :=
  listStarts pat.data s.data

/-- Models JS `s.endsWith(pat)`. -/
def jsEndsWith (s pat : String) : Bool :=
  listStarts pat.data.reverse s.data.reverse

/-- JS truthiness of an optional string (`undefined` and `''` are falsy). -/
def jsTruthyStr : Option String → Bool
  | some s => !s.isEmpty
  | none => false

/-- JS truthiness (`!!`) of an optional boolean (`undefined` is falsy). -/
def jsTruthyB : Option Bool → Bool
  | some b => b
  | none => false

/-- JS `x || ''` for an optional string. -/
def jsOrEmpty : Option String → String
  | some s => s
  | none => ""

theorem listStarts_self_append (p t : List Char) : listStarts p (p ++ t) = true := by
  induction p with
  | nil => rfl
  | cons c cs ih => simp [listStarts, ih]

theorem listStarts_of_append_left {a y s : List Char}
    (h : listStarts (a ++ y) s = true) : listStarts a s = true := by
  induction a generalizing s with
  | nil => rfl
  | cons c cs ih =>
    cases s with
    | nil => exact absurd h (by simp [listStarts])
    | cons d ds =>
      simp only [List.cons_append, listStarts, Bool.and_eq_true] at h ⊢
      exact ⟨h.1, ih h.2⟩

theorem eq_append_drop_of_listStarts {p l : List Char}
    (h : listStarts p l = true) : l = p ++ l.drop p.length := by
  induction p generalizing l with
  | nil => simp
  | cons c cs ih =>
    cases l with
    | nil => exact absurd h (by simp [listStarts])
    | cons d ds =>
      simp only [listStarts, Bool.and_eq_true, decide_eq_true_eq] at h
      obtain ⟨rfl, h2⟩ := h
      simpa using ih h2

/-! ### Data model: handler declarations (from `../../types`, as used by
`src/unnamed/part_000`).  Optional fields are `Option`. -/

structure NitroEventHandler where
  route : Option String
  handler : String
  method : Option String
  lazy : Option Bool
  middleware : Option Bool
deriving DecidableEq

/-! ### Identifier hasher (`getImportId` in `src/unnamed/part_000`, line 12):
`(lazy ? '_lazy_' : '_') + hash(p).slice(0, 6)`.  The `ohash` `hash`
function is external, so it is a parameter. -/

def getImportId (hashFn : String → String) (p : String) (lazy : Bool) : String :=
  (if lazy then "_lazy_" else "_") ++ String.mk ((hashFn p).data.take 6)

/-! ### Method inference (`src/unnamed/part_000`, lines 20-28).

The source matches the handler path against the regular expression
`/\.(get|head|patch|post|put|delete|connect|options|trace)(\.\w+)*$/`.
The embedding implements JS `String.prototype.match` semantics for this
anchored pattern: scan positions left to right; at a position the
pattern matches when the text is `'.'`, then one of the method tokens,
then a tail matching `(\.\w+)*$`, i.e. a concatenation of groups each
consisting of `'.'` followed by one or more word characters, running to
the end of the string.  Because no method token is a prefix of another
and `\w` excludes both `'.'` and every character that could extend a
group ambiguously, this direct reading coincides with the backtracking
semantics of the regex engine. -/

def methodTokens : List String :=
  ["get", "head", "patch", "post", "put", "delete", "connect", "options", "trace"]

/-- JS `\w`: `[A-Za-z0-9_]`. -/
def isWordChar (c : Char) : Bool := c.isAlphanum || c = '_'

/-- Split a character list on a separator character. -/
def splitChar (sep : Char) : List Char → List (List Char)
  | [] => [[]]
  | c :: cs =>
    if c = sep then [] :: splitChar sep cs
    else
      match splitChar sep cs with
      | s :: ss => (c :: s) :: ss
      | [] => [[c]]

/-- One `\.\w+` chunk: nonempty, all word characters. -/
def segOk (seg : List Char) : Bool := !seg.isEmpty && seg.all isWordChar

/-- Executable test for the regex tail `(\.\w+)*$`. -/
def isExtTail : List Char → Bool
  | [] => true
  | '.' :: r => (splitChar '.' r).all segOk
  | _ :: _ => false

/-- Declarative reading of `(\.\w+)*$`: the tail is a concatenation of
blocks, each a dot followed by a nonempty run of word characters. -/
def ExtTailSpec (suf : List Char) : Prop :=
  ∃ parts : List (List Char),
    (∀ p ∈ parts, p ≠ [] ∧ ∀ c ∈ p, isWordChar c = true) ∧
    suf = (parts.map (fun p => '.' :: p)).flatten

/-- Regex match attempt at one position (the text must start with `'.'`,
then a method token, then an extension tail running to the end). -/
def matchAt : List Char → Option String
  | [] => none
  | c :: rest =>
    if c = '.' then
      methodTokens.findSome? fun m =>
        if listStarts m.data rest && isExtTail (rest.drop m.data.length) then some m
        else none
    else none

/-- Leftmost match of the method-suffix regex (JS `String.prototype.match`
for the anchored pattern above); returns the captured method token. -/
def findMethod : List Char → Option String
  | [] => none
  | c :: cs =>
    match matchAt (c :: cs) with
    | some m => some m
    | none => findMethod cs

def findMethodStr (s : String) : Option String := findMethod s.data

/-- `src/unnamed/part_000` lines 20-28: a configured handler with a truthy
`method` is returned unchanged; otherwise `method` is set to the
regex-inferred token (possibly `undefined`). -/
def inferredHandler (h : NitroEventHandler) : NitroEventHandler :=
  if jsTruthyStr h.method then h
  else { h with method := findMethodStr h.handler }

/-! ### Handler-table composition and the generated server-handlers module
(`src/unnamed/part_000`, lines 16-65). -/

/-- The slice of `nitro` / `nitro.options` that the generator reads. -/
structure HandlersOptions where
  scannedHandlers : List NitroEventHandler
  configuredHandlers : List NitroEventHandler
  serveStatic : Bool
  renderer : Option String
deriving DecidableEq

/-- The entry `unshift`ed when `serveStatic` is truthy:
`{ middleware: true, handler: '#internal/nitro/static' }`. -/
def staticEntry : NitroEventHandler :=
  { route := none, handler := "#internal/nitro/static", method := none
    lazy := none, middleware := some true }

/-- The entry `push`ed when a renderer is configured:
`{ route: '/**', lazy: true, handler: nitro.options.renderer }`. -/
def rendererEntry (r : String) : NitroEventHandler :=
  { route := some "/**", handler := r, method := none
    lazy := some true, middleware := none }

/-- Lines 18-35: `[...scannedHandlers, ...options.handlers.map(inference)]`,
then `unshift` of the static middleware entry when `serveStatic` is
truthy, then `push` of the renderer entry when a renderer is configured. -/
def buildHandlers (o : HandlersOptions) : List NitroEventHandler :=
  let base := o.scannedHandlers ++ o.configuredHandlers.map inferredHandler
  let base2 := if o.serveStatic then staticEntry :: base else base
  if jsTruthyStr o.renderer then base2 ++ [rendererEntry (jsOrEmpty o.renderer)]
  else base2

/-- `Array.from(new Set(arr))`: deduplicate keeping the first occurrence,
preserving insertion order. -/
def uniqueAux : List String → List String → List String
  | [], _ => []
  | x :: xs, seen => if x ∈ seen then uniqueAux xs seen else x :: uniqueAux xs (x :: seen)

def unique (xs : List String) : List String := uniqueAux xs []

/-- Line 48: `unique(handlers.filter(h => !h.lazy).map(h => h.handler))`. -/
def eagerImports (hs : List NitroEventHandler) : List String :=
  unique ((hs.filter fun h => !jsTruthyB h.lazy).map fun h => h.handler)

/-- Line 52: `unique(handlers.filter(h => h.lazy).map(h => h.handler))`.
Note that the source does NOT exclude ids that already occur in
`eagerImports`, despite the comment "Lazy imports should fill in the
gaps" directly above this line. -/
def lazyImportIds (hs : List NitroEventHandler) : List String :=
  unique ((hs.filter fun h => jsTruthyB h.lazy).map fun h => h.handler)

/-- One emitted static import statement (line 55 of the template). -/
def importStmt (hashFn : String → String) (handler : String) : String :=
  "import " ++ getImportId hashFn handler false ++ " from '" ++ handler ++ "';"

/-- One emitted deferred-load thunk (line 57 of the template). -/
def lazyStmt (hashFn : String → String) (handler : String) : String :=
  "const " ++ getImportId hashFn handler true ++ " = () => import('" ++ handler ++ "');"

/-- The field values of one emitted dispatch-table row (line 60):
`{ route: '${h.route || ''}', handler: ${getImportId(h.handler, h.lazy)},
lazy: ${!!h.lazy}, middleware: ${!!h.middleware},
method: ${JSON.stringify(h.method)} }`.  This record is what a parser of
the emitted row text recovers (string literals are re-parsed to the
interpolated values, `JSON.stringify(undefined)` prints as the
identifier `undefined` and re-parses to an absent method). -/
structure EmittedRow where
  route : String
  handlerRef : String
  lazy : Bool
  middleware : Bool
  method : Option String
deriving DecidableEq

def emitRow (hashFn : String → String) (h : NitroEventHandler) : EmittedRow :=
  { route := jsOrEmpty h.route
    handlerRef := getImportId hashFn h.handler (jsTruthyB h.lazy)
    lazy := jsTruthyB h.lazy
    middleware := jsTruthyB h.middleware
    method := h.method }

/-- The structured content of the generated virtual module: the static
eager-import statements (in `eagerImports` order), the lazy thunk statements
(in `lazyImportIds` order), and the rows of the exported `handlers`
array literal (one per table row, in table order). -/
structure GeneratedModule where
  importLines : List String
  lazyLines : List String
  rows : List EmittedRow
deriving DecidableEq

/-- Result of one generator invocation: the module, the new value of the
module-level `lastDump` variable, and what (if anything) was printed to
the console. -/
structure GenResult where
  module : GeneratedModule
  lastDump : String
  printed : Option String
deriving DecidableEq

/-- The generator for `#internal/nitro/virtual/server-handlers`
(`src/unnamed/part_000`, lines 17-63), with the module-level mutable
`lastDump` made explicit state and the debug flag (`isDebug` from
`std-env`) and table renderer (`dumpHandler`, which formats through the
external `table` package) passed as parameters. -/
def generateServerHandlers (hashFn : String → String)
    (dump : List NitroEventHandler → String) (isDbg : Bool)
    (o : HandlersOptions) (lastDump : String) : GenResult :=
  let hs := buildHandlers o
  let st :=
    if isDbg then
      let dumped := dump hs
      if dumped ≠ lastDump then
        (dumped, if hs.length ≠ 0 then some dumped else none)
      else (lastDump, none)
    else (lastDump, none)
  { module :=
      { importLines := (eagerImports hs).map (importStmt hashFn)
        lazyLines := (lazyImportIds hs).map (lazyStmt hashFn)
        rows := hs.map (emitRow hashFn) }
    lastDump := st.1
    printed := st.2 }

/-- Composition shape of the handler table: optional static-middleware
entry first, then scanned handlers, then configured handlers (with
inferred methods) in declaration order, then the optional renderer
entry last. -/
theorem buildHandlers_eq (o : HandlersOptions) :
    buildHandlers o
      = (if o.serveStatic then [staticEntry] else []) ++ o.scannedHandlers
        ++ o.configuredHandlers.map inferredHandler
        ++ (if jsTruthyStr o.renderer then [rendererEntry (jsOrEmpty o.renderer)] else []) := by
  simp only [buildHandlers]
  by_cases hs : o.serveStatic <;> by_cases hr : jsTruthyStr o.renderer <;>
    simp [hs, hr, List.append_assoc]

/-- Exact per-row metadata round-trip between a table declaration and the
corresponding emitted (re-parsed) dispatch row. -/
abbrev rowRoundTripExact (h : NitroEventHandler) (e : EmittedRow) : Prop :=
  h.route = some e.route ∧ h.lazy = some e.lazy ∧ h.middleware = some e.middleware
    ∧ h.method = e.method

/-- The spec's own dual-registration scenario: the same module id `h1`
declared once eagerly and once lazily. -/
def c1DualOptions : HandlersOptions :=
  { scannedHandlers := []
    configuredHandlers :=
      [ { route := some "/a", handler := "h1", method := none, lazy := none
          middleware := none },
        { route := some "/b", handler := "h1", method := none, lazy := some true
          middleware := none } ]
    serveStatic := false
    renderer := none }

/-- C1: the claim states that for a module id declared both eagerly and
lazily only the eager import is emitted, the lazy thunk is never
emitted, and every dispatch row for that id references the eager
binding.  Evaluating the embedded generator at the spec's own
dual-registration scenario shows the code does otherwise: it emits the
eager import AND the lazy thunk for `h1`, and the lazy row references
the lazy binding `_lazy_...` rather than the eager one.  This
contradicts the source's own comments ("Imports take priority" and
"Lazy imports should fill in the gaps"), so the claim is recorded as a
code bug rather than corrected. -/
theorem C1_dual_registration_emits_lazy_thunk :
    (generateServerHandlers (fun _ => "aaaaaa") (fun _ => "") false c1DualOptions
        "").module.importLines = ["import _aaaaaa from 'h1';"]
    ∧ (generateServerHandlers (fun _ => "aaaaaa") (fun _ => "") false c1DualOptions
        "").module.lazyLines = ["const _lazy_aaaaaa = () => import('h1');"]
    ∧ ((generateServerHandlers (fun _ => "aaaaaa") (fun _ => "") false c1DualOptions
        "").module.rows.map fun r => r.handlerRef) = ["_aaaaaa", "_lazy_aaaaaa"] := by
  refine ⟨?_, ?_, ?_⟩ <;> decide

/-- C2: the emitted array literal has exactly one row per handler
declaration and preserves composition order bit-for-bit: static-asset
middleware entry first (when `serveStatic` is enabled), then the
scanned handlers followed by the configured handlers in declaration
order, and the catch-all renderer entry last (when configured). -/
theorem C2_emitted_rows_preserve_order (hashFn : String → String)
    (dump : List NitroEventHandler → String) (dbg : Bool) (o : HandlersOptions)
    (last : String) :
    (generateServerHandlers hashFn dump dbg o last).module.rows
      = ((if o.serveStatic then [staticEntry] else []) ++ o.scannedHandlers
          ++ o.configuredHandlers.map inferredHandler
          ++ (if jsTruthyStr o.renderer then [rendererEntry (jsOrEmpty o.renderer)]
              else [])).map (emitRow hashFn)
    ∧ (generateServerHandlers hashFn dump dbg o last).module.rows.length
      = (if o.serveStatic then 1 else 0) + o.scannedHandlers.length
        + o.configuredHandlers.length
        + (if jsTruthyStr o.renderer then 1 else 0) := by
  have hrows : (generateServerHandlers hashFn dump dbg o last).module.rows
      = (buildHandlers o).map (emitRow hashFn) := rfl
  constructor
  · rw [hrows, buildHandlers_eq]
  · rw [hrows, List.length_map, buildHandlers_eq]
    by_cases hs : o.serveStatic <;> by_cases hr : jsTruthyStr o.renderer <;>
      simp [hs, hr] <;> omega

/-- C8: the debug diagnostic is printed iff the build is in debug mode,
the rendered table differs from the previously stored dump, and the
handler table is nonempty; the stored dump is updated exactly when the
rendering differs in debug mode; and the generated module text is
independent of the debug flag and of the stored dump (the diagnostic
never alters the generated module). -/
theorem C8_debug_dump_only_on_change (hashFn : String → String)
    (dump : List NitroEventHandler → String) (dbg : Bool) (o : HandlersOptions)
    (last : String) :
    ((generateServerHandlers hashFn dump dbg o last).printed
        = if dbg = true ∧ dump (buildHandlers o) ≠ last ∧ buildHandlers o ≠ []
          then some (dump (buildHandlers o)) else none)
    ∧ ((generateServerHandlers hashFn dump dbg o last).lastDump
        = if dbg = true ∧ dump (buildHandlers o) ≠ last then dump (buildHandlers o)
          else last)
    ∧ (∀ dbg2 last2,
        (generateServerHandlers hashFn dump dbg2 o last2).module
          = (generateServerHandlers hashFn dump dbg o last).module) := by
  refine ⟨?_, ?_, fun dbg2 last2 => rfl⟩ <;>
    · cases dbg <;>
        simp only [generateServerHandlers] <;>
        split_ifs <;>
        simp_all [List.length_eq_zero]

/-- A one-row table produced by the generator itself: with `serveStatic`
enabled and nothing else, the table is exactly the static-middleware
entry, whose `route`, `lazy` and `middleware` fields are absent. -/
def c7StaticOnly : HandlersOptions :=
  { scannedHandlers := [], configuredHandlers := [], serveStatic := true
    renderer := none }

/-- C7 counterexample: the claim asserts that re-parsing the emitted
rows yields the original per-row metadata for every handler table.  For
the table consisting of the static-middleware entry (whose `route` is
absent), the emitted row carries `route: ''`, which re-parses to the
string `''`, not to the absent value — so the claim fails at this
concrete input. -/
theorem C7_roundtrip_counterexample :
    buildHandlers c7StaticOnly = [staticEntry]
    ∧ (generateServerHandlers (fun _ => "aaaaaa") (fun _ => "") false c7StaticOnly
        "").module.rows = [emitRow (fun _ => "aaaaaa") staticEntry]
    ∧ ¬ rowRoundTripExact staticEntry (emitRow (fun _ => "aaaaaa") staticEntry) := by
  refine ⟨by decide, by decide, by decide⟩

/-- Per-declaration round-trip between a table declaration and its
emitted (re-parsed) row: every explicitly present `route`, `lazy` or
`middleware` field is recovered exactly, an absent field re-parses to
its JS truthiness normalization (`\'\'` / `false`), and `method` is
recovered exactly in all cases. -/
abbrev rowRoundTrip (h : NitroEventHandler) (e : EmittedRow) : Prop :=
  (h.route.isSome = true → h.route = some e.route)
  ∧ (h.route = none → e.route = "")
  ∧ (h.lazy.isSome = true → h.lazy = some e.lazy)
  ∧ (h.lazy = none → e.lazy = false)
  ∧ (h.middleware.isSome = true → h.middleware = some e.middleware)
  ∧ (h.middleware = none → e.middleware = false)
  ∧ h.method = e.method

/-- C7 (amended): for every handler table, row for row: re-parsing the
`{route, lazy, middleware, method}` fields of the emitted rows yields
the original per-row metadata for each declaration field that is
explicitly present (`method` round-trips unconditionally, including
when absent); an absent field re-parses to its JS truthiness
normalization (absent `route` to `\'\'`, absent `lazy` and `middleware`
to `false`) instead of the absent value. -/
theorem C7_roundtrip_amended (hashFn : String → String)
    (dump : List NitroEventHandler → String) (dbg : Bool) (o : HandlersOptions)
    (last : String) :
    List.Forall₂ rowRoundTrip (buildHandlers o)
      ((generateServerHandlers hashFn dump dbg o last).module.rows) := by
  have hrows : (generateServerHandlers hashFn dump dbg o last).module.rows
      = (buildHandlers o).map (emitRow hashFn) := rfl
  rw [hrows, List.forall₂_map_right_iff, List.forall₂_same]
  intro h hmem
  refine ⟨?_, ?_, ?_, ?_, ?_, ?_, rfl⟩
  · intro hs
    obtain ⟨r, hr⟩ := Option.isSome_iff_exists.mp hs
    simp [emitRow, jsOrEmpty, hr]
  · intro hn
    simp [emitRow, jsOrEmpty, hn]
  · intro hs
    obtain ⟨b, hb⟩ := Option.isSome_iff_exists.mp hs
    simp [emitRow, jsTruthyB, hb]
  · intro hn
    simp [emitRow, jsTruthyB, hn]
  · intro hs
    obtain ⟨b, hb⟩ := Option.isSome_iff_exists.mp hs
    simp [emitRow, jsTruthyB, hb]
  · intro hn
    simp [emitRow, jsTruthyB, hn]

/-- A mixed table: the auto-added static-middleware entry (absent route,
lazy and middleware flags), one fully explicit configured handler, and
the auto-added renderer entry. -/
def c7MixedOptions : HandlersOptions :=
  { scannedHandlers := []
    configuredHandlers :=
      [ { route := some "/a", handler := "h1", method := some "post"
          lazy := some true, middleware := some false } ]
    serveStatic := true
    renderer := some "/render.ts" }

theorem C7_roundtrip_amended_witness :
    (buildHandlers c7MixedOptions).length = 3
    ∧ List.Forall₂ rowRoundTrip (buildHandlers c7MixedOptions)
        ((generateServerHandlers (fun _ => "bbbbbb") (fun _ => "") false
          c7MixedOptions "").module.rows) :=
  ⟨by decide,
    C7_roundtrip_amended (fun _ => "bbbbbb") (fun _ => "") false c7MixedOptions ""⟩

/-- A character legal inside a JS binding name ([A-Za-z0-9_$]). -/
def isIdentChar (c : Char) : Bool := c.isAlphanum || c = '_' || c = '$'

/-- A valid JS binding name at the character-list level: nonempty, first
character identifier-legal and not a digit, remaining characters
identifier-legal. -/
def isValidBindingList : List Char → Bool
  | [] => false
  | c :: cs => !c.isDigit && isIdentChar c && cs.all isIdentChar

def isValidBindingName (s : String) : Bool := isValidBindingList s.data

theorem isValidBindingList_underscore_cons (k : List Char) :
    isValidBindingList ('_' :: k) = k.all isIdentChar := by
  show (! '_'.isDigit && isIdentChar '_' && k.all isIdentChar) = k.all isIdentChar
  rw [show (! '_'.isDigit) = true from by decide,
    show isIdentChar '_' = true from by decide]
  simp

theorem isValidBindingList_lazy_cons (k : List Char) :
    isValidBindingList ('_' :: 'l' :: 'a' :: 'z' :: 'y' :: '_' :: k)
      = k.all isIdentChar := by
  show (! '_'.isDigit && isIdentChar '_'
      && ('l' :: 'a' :: 'z' :: 'y' :: '_' :: k).all isIdentChar) = k.all isIdentChar
  rw [show (! '_'.isDigit) = true from by decide,
    show isIdentChar '_' = true from by decide]
  simp only [List.all_cons,
    show isIdentChar 'l' = true from by decide,
    show isIdentChar 'a' = true from by decide,
    show isIdentChar 'z' = true from by decide,
    show isIdentChar 'y' = true from by decide,
    show isIdentChar '_' = true from by decide]
  simp

/-- C6 counterexample: the claim asserts every returned token is a valid
binding name, but `getImportId` embeds the first 6 characters of the
`ohash` output unfiltered, and that output is base64url, whose alphabet
contains `'-'` — the source itself strips every `'-'` from the same
hash before identifier use at `src/src/rollup/config.ts` line 371,
where it calls `.replace` with a global dash regex on `hash(plugin)`.
For the possible hash output
`"ab-cde"` the eager token is `"_ab-cde"`, which is not a valid binding
name. -/
theorem C6_binding_name_counterexample :
    getImportId (fun _ => "ab-cde") "handler.ts" false = "_ab-cde"
    ∧ isValidBindingName (getImportId (fun _ => "ab-cde") "handler.ts" false)
        = false := by
  exact ⟨by decide, by decide⟩

/-- C6 (amended): the identifier hasher is deterministic by construction
(a pure function of the path and variant); for a hash value of at
least 6 characters the eager and lazy tokens for the same path are
distinct, the eager token is `'_'` plus 6 hash characters (length 7),
the lazy token is `'_lazy_'` plus 6 hash characters (length 12), both
start with `'_'` — hence not with a digit — and a token is a valid
binding name exactly when the 6 embedded hash characters are all
identifier-legal (the generator does not filter the hash alphabet, so
a base64url `'-'` passes through). -/
theorem C6_identifier_hasher (hashFn : String → String) (p : String)
    (hlen : 6 ≤ (hashFn p).data.length) :
    getImportId hashFn p false = "_" ++ String.mk ((hashFn p).data.take 6)
    ∧ getImportId hashFn p true = "_lazy_" ++ String.mk ((hashFn p).data.take 6)
    ∧ getImportId hashFn p false ≠ getImportId hashFn p true
    ∧ (getImportId hashFn p false).length = 7
    ∧ (getImportId hashFn p true).length = 12
    ∧ (∀ v : Bool, (getImportId hashFn p v).data.head? = some '_')
    ∧ (∀ (v : Bool) (c : Char),
        (getImportId hashFn p v).data.head? = some c → c.isDigit = false)
    ∧ (∀ v : Bool, isValidBindingName (getImportId hashFn p v)
        = ((hashFn p).data.take 6).all isIdentChar) := by
  have hk : ((hashFn p).data.take 6).length = 6 := by
    rw [List.length_take]
    omega
  have hfalse : (getImportId hashFn p false).length = 7 := by
    show (('_' :: (hashFn p).data.take 6)).length = 7
    simp [hk]
  have htrue : (getImportId hashFn p true).length = 12 := by
    show (('_' :: 'l' :: 'a' :: 'z' :: 'y' :: '_' :: (hashFn p).data.take 6)).length = 12
    simp [hk]
  have hne : getImportId hashFn p false ≠ getImportId hashFn p true := by
    intro heq
    have := congrArg String.length heq
    rw [hfalse, htrue] at this
    omega
  have hhead : ∀ v : Bool, (getImportId hashFn p v).data.head? = some '_' := by
    intro v
    cases v <;> rfl
  have hvalid : ∀ v : Bool, isValidBindingName (getImportId hashFn p v)
      = ((hashFn p).data.take 6).all isIdentChar := by
    intro v
    cases v
    · exact isValidBindingList_underscore_cons ((hashFn p).data.take 6)
    · exact isValidBindingList_lazy_cons ((hashFn p).data.take 6)
  refine ⟨rfl, rfl, hne, hfalse, htrue, hhead, fun v c hc => ?_, hvalid⟩
  rw [hhead v] at hc
  cases hc
  decide

theorem C6_identifier_hasher_witness :
    6 ≤ ("0123456789".data.length)
    ∧ getImportId (fun _ => "0123456789") "src/routes/a.ts" false
        ≠ getImportId (fun _ => "0123456789") "src/routes/a.ts" true
    ∧ isValidBindingName
        (getImportId (fun _ => "0123456789") "src/routes/a.ts" false)
      = (("0123456789" : String).data.take 6).all isIdentChar :=
  ⟨by decide,
    (C6_identifier_hasher (fun _ => "0123456789") "src/routes/a.ts"
      (by decide)).2.2.1,
    (C6_identifier_hasher (fun _ => "0123456789") "src/routes/a.ts"
      (by decide)).2.2.2.2.2.2.2 false⟩

/-! ### Regex-tail lemmas: the executable `isExtTail` coincides with the
declarative `ExtTailSpec` reading of `(\.\w+)*$`. -/

theorem splitChar_ne_nil (sep : Char) (cs : List Char) : splitChar sep cs ≠ [] := by
  induction cs with
  | nil => simp [splitChar]
  | cons c cs ih =>
    by_cases h : c = sep
    · simp [splitChar, h]
    · simp only [splitChar, if_neg h]
      cases hs : splitChar sep cs with
      | nil => exact absurd hs ih
      | cons s ss => simp

/-- `joinSep` is the inverse of `splitChar`: interleave the separator
between the chunks. -/
def joinSep (sep : Char) : List (List Char) → List Char
  | [] => []
  | s :: ss =>
    match ss with
    | [] => s
    | _ :: _ => s ++ sep :: joinSep sep ss

theorem joinSep_splitChar (sep : Char) (cs : List Char) :
    joinSep sep (splitChar sep cs) = cs := by
  induction cs with
  | nil => rfl
  | cons c cs ih =>
    by_cases h : c = sep
    · simp only [splitChar, if_pos h]
      cases hs : splitChar sep cs with
      | nil => exact absurd hs (splitChar_ne_nil sep cs)
      | cons s ss =>
        show [] ++ sep :: joinSep sep (s :: ss) = c :: cs
        rw [← hs, ih, h]
        rfl
    · simp only [splitChar, if_neg h]
      cases hs : splitChar sep cs with
      | nil => exact absurd hs (splitChar_ne_nil sep cs)
      | cons s ss =>
        cases ss with
        | nil =>
          have hcs : s = cs := by rw [hs] at ih; exact ih
          simp [joinSep, hcs]
        | cons s2 ss2 =>
          have hcs : s ++ sep :: joinSep sep (s2 :: ss2) = cs := by
            rw [hs] at ih; exact ih
          show (c :: s) ++ sep :: joinSep sep (s2 :: ss2) = c :: cs
          rw [← hcs]
          rfl

theorem splitChar_append_sep (sep : Char) (p t : List Char)
    (hp : ∀ c ∈ p, c ≠ sep) :
    splitChar sep (p ++ sep :: t) = p :: splitChar sep t := by
  induction p with
  | nil => simp [splitChar]
  | cons c cs ih =>
    have hc : c ≠ sep := hp c (by simp)
    show splitChar sep (c :: (cs ++ sep :: t)) = (c :: cs) :: splitChar sep t
    simp only [splitChar, if_neg hc]
    rw [ih fun d hd => hp d (by simp [hd])]

theorem splitChar_no_sep (sep : Char) (p : List Char) (hp : ∀ c ∈ p, c ≠ sep) :
    splitChar sep p = [p] := by
  induction p with
  | nil => rfl
  | cons c cs ih =>
    have hc : c ≠ sep := hp c (by simp)
    simp only [splitChar, if_neg hc]
    rw [ih fun d hd => hp d (by simp [hd])]

theorem splitChar_joinSep (sep : Char) (parts : List (List Char))
    (h : parts ≠ []) (hall : ∀ p ∈ parts, ∀ c ∈ p, c ≠ sep) :
    splitChar sep (joinSep sep parts) = parts := by
  induction parts with
  | nil => cases h rfl
  | cons p ps ih =>
    cases ps with
    | nil => simpa [joinSep] using splitChar_no_sep sep p (hall p (by simp))
    | cons q qs =>
      show splitChar sep (p ++ sep :: joinSep sep (q :: qs)) = p :: q :: qs
      rw [splitChar_append_sep sep p _ (hall p (by simp))]
      rw [ih (by simp) fun x hx => hall x (by simp [hx])]

theorem dot_joinSep_eq_flatten (sep : Char) (parts : List (List Char))
    (h : parts ≠ []) :
    sep :: joinSep sep parts = (parts.map fun p => sep :: p).flatten := by
  induction parts with
  | nil => cases h rfl
  | cons p ps ih =>
    cases ps with
    | nil => simp [joinSep]
    | cons q qs =>
      show sep :: (p ++ sep :: joinSep sep (q :: qs))
          = (sep :: p) ++ ((q :: qs).map fun p => sep :: p).flatten
      rw [← ih (by simp)]
      simp

theorem isWordChar_ne_dot {c : Char} (h : isWordChar c = true) : c ≠ '.' := by
  intro hc
  subst hc
  simp [isWordChar] at h

theorem isExtTail_iff (suf : List Char) : isExtTail suf = true ↔ ExtTailSpec suf := by
  constructor
  · intro h
    cases suf with
    | nil => exact ⟨[], by simp, rfl⟩
    | cons c r =>
      by_cases hc : c = '.'
      · subst hc
        have hall : (splitChar '.' r).all segOk = true := h
        refine ⟨splitChar '.' r, ?_, ?_⟩
        · intro p hp
          have hseg := (List.all_eq_true.mp hall) p hp
          simp only [segOk, Bool.and_eq_true, Bool.not_eq_true'] at hseg
          refine ⟨?_, fun c hc => (List.all_eq_true.mp hseg.2) c hc⟩
          intro hnil
          rw [hnil] at hseg
          simp [List.isEmpty] at hseg
        · rw [← dot_joinSep_eq_flatten '.' _ (splitChar_ne_nil '.' r),
            joinSep_splitChar]
      · exfalso
        have : isExtTail (c :: r) = false := by
          rw [isExtTail.eq_def]
          split
          · simp_all
          · simp_all
          · rfl
        rw [h] at this
        cases this
  · rintro ⟨parts, hgood, rfl⟩
    cases parts with
    | nil => rfl
    | cons p ps =>
      rw [← dot_joinSep_eq_flatten '.' (p :: ps) (by simp)]
      show (splitChar '.' (joinSep '.' (p :: ps))).all segOk = true
      rw [splitChar_joinSep '.' (p :: ps) (by simp)
        fun q hq c hc => isWordChar_ne_dot ((hgood q hq).2 c hc)]
      rw [List.all_eq_true]
      intro q hq
      obtain ⟨hne, hw⟩ := hgood q hq
      simp only [segOk, Bool.and_eq_true, Bool.not_eq_true', List.all_eq_true]
      exact ⟨by simp [List.isEmpty_iff, hne], hw⟩

/-! ### Soundness and completeness of the leftmost method-suffix match. -/

theorem findSome?_some_mem {α β : Type} {f : α → Option β} {l : List α} {b : β}
    (h : l.findSome? f = some b) : ∃ a ∈ l, f a = some b := by
  induction l with
  | nil => cases h
  | cons x xs ih =>
    rw [List.findSome?_cons] at h
    cases hx : f x with
    | some c =>
      rw [hx] at h
      cases h
      exact ⟨x, by simp, hx⟩
    | none =>
      rw [hx] at h
      obtain ⟨a, ha, hfa⟩ := ih h
      exact ⟨a, by simp [ha], hfa⟩

theorem findMethod_cons (c : Char) (cs : List Char) :
    findMethod (c :: cs)
      = match matchAt (c :: cs) with
        | some m => some m
        | none => findMethod cs := rfl

theorem matchAt_sound {c : Char} {cs : List Char} {m : String}
    (h : matchAt (c :: cs) = some m) :
    c = '.' ∧ m ∈ methodTokens ∧ listStarts m.data cs = true
      ∧ isExtTail (cs.drop m.data.length) = true := by
  by_cases hc : c = '.'
  · subst hc
    simp only [matchAt, if_pos rfl] at h
    obtain ⟨tok, htok, hcond⟩ := findSome?_some_mem h
    by_cases hb : listStarts tok.data cs && isExtTail (cs.drop tok.data.length)
    · rw [if_pos hb] at hcond
      cases hcond
      rw [Bool.and_eq_true] at hb
      exact ⟨rfl, htok, hb.1, hb.2⟩
    · rw [if_neg hb] at hcond
      cases hcond
  · rw [matchAt, if_neg hc] at h
    cases h

theorem findMethod_sound {cs : List Char} {m : String}
    (h : findMethod cs = some m) :
    m ∈ methodTokens
      ∧ ∃ pre suf, cs = pre ++ '.' :: m.data ++ suf ∧ isExtTail suf = true := by
  induction cs with
  | nil => cases h
  | cons c cs ih =>
    rw [findMethod_cons] at h
    cases hma : matchAt (c :: cs) with
    | some m2 =>
      rw [hma] at h
      cases h
      obtain ⟨hc, hmem, hstart, hext⟩ := matchAt_sound hma
      subst hc
      refine ⟨hmem, [], cs.drop m.data.length, ?_, hext⟩
      simpa using eq_append_drop_of_listStarts hstart
    | none =>
      rw [hma] at h
      obtain ⟨hmem, pre, suf, hdec, hext⟩ := ih h
      exact ⟨hmem, c :: pre, suf, by simp [hdec], hext⟩

theorem findMethod_complete {m : String} (hm : m ∈ methodTokens) :
    ∀ {cs pre suf : List Char}, cs = pre ++ '.' :: m.data ++ suf →
      isExtTail suf = true → (findMethod cs).isSome = true := by
  intro cs pre
  induction pre generalizing cs with
  | nil =>
    intro suf hdec hext
    subst hdec
    simp only [List.nil_append, List.cons_append]
    rw [findMethod_cons]
    cases hma : matchAt ('.' :: (m.data ++ suf)) with
    | some m2 => rfl
    | none =>
      exfalso
      rw [matchAt, if_pos rfl] at hma
      rw [List.findSome?_eq_none_iff] at hma
      have := hma m hm
      rw [listStarts_self_append, List.drop_left] at this
      simp [hext] at this
  | cons c pre ih =>
    intro suf hdec hext
    subst hdec
    simp only [List.cons_append]
    rw [findMethod_cons]
    cases hma : matchAt (c :: (pre ++ '.' :: m.data ++ suf)) with
    | some m2 => rfl
    | none => exact ih rfl hext

/-- C5: for a configured handler, a truthy explicit method is kept and
the handler is returned unchanged; otherwise the method becomes the
leftmost token of the set get|head|patch|post|put|delete|connect|
options|trace that occurs immediately after a `'.'` and immediately
before a trailing run of extension segments (`(\.\w+)*$`), and it stays
absent exactly when no such decomposition of the handler path exists. -/
theorem C5_method_inference (h : NitroEventHandler) :
    (jsTruthyStr h.method = true → inferredHandler h = h)
    ∧ (jsTruthyStr h.method = false →
        inferredHandler h = { h with method := findMethodStr h.handler })
    ∧ (∀ m, findMethodStr h.handler = some m →
        m ∈ methodTokens
          ∧ ∃ pre suf, h.handler.data = pre ++ '.' :: m.data ++ suf ∧ ExtTailSpec suf)
    ∧ (∀ (pre : List Char) (m : String) (suf : List Char), m ∈ methodTokens →
        h.handler.data = pre ++ '.' :: m.data ++ suf → ExtTailSpec suf →
        (findMethodStr h.handler).isSome = true) := by
  refine ⟨?_, ?_, ?_, ?_⟩
  · intro ht
    simp [inferredHandler, ht]
  · intro hf
    simp [inferredHandler, hf]
  · intro m hfind
    obtain ⟨hmem, pre, suf, hdec, hext⟩ := findMethod_sound hfind
    exact ⟨hmem, pre, suf, hdec, (isExtTail_iff suf).mp hext⟩
  · intro pre m suf hmem hdec hext
    exact findMethod_complete hmem hdec ((isExtTail_iff suf).mpr hext)

theorem C5_method_inference_witness :
    jsTruthyStr (none : Option String) = false
    ∧ (inferredHandler
        { route := some "/users", handler := "handlers/users.get.ts", method := none
          lazy := none, middleware := none }).method = some "get" := by
  refine ⟨rfl, ?_⟩
  have h2 := (C5_method_inference
    { route := some "/users", handler := "handlers/users.get.ts", method := none
      lazy := none, middleware := none }).2.1 (by decide)
  rw [h2]
  decide

/-! ### Chunk classifier (`src/src/rollup/config.ts`, lines 70-120). -/

/-- `pathe.join` for already-normalized directory paths: append with a
single `/` separator. -/
def joinPath (b s : String) : String :=
  if jsEndsWith b "/" then b ++ s else b ++ "/" ++ s

/-- One entry of `nitro.options.tasks` (only the `handler` field is read
by `getChunkName`). -/
structure TaskDef where
  handler : Option String
deriving DecidableEq

/-- The slice of the rollup-config closure that `getChunkName` reads. -/
structure ChunkEnv where
  buildDir : String
  runtimeDir : String
  presetsDir : String
  configuredHandlers : List NitroEventHandler
  scannedHandlers : List NitroEventHandler
  tasks : List (String × TaskDef)
deriving DecidableEq

/-- `join(nitro.options.buildDir, "dist/server")` (line 70). -/
def buildServerDir (env : ChunkEnv) : String := joinPath env.buildDir "dist/server"

/-- The ordered `chunkNamePrefixes` table (lines 74-82). -/
def chunkNameRules (env : ChunkEnv) : List (String × String) :=
  [ (env.buildDir, "build"),
    (buildServerDir env, "app"),
    (env.runtimeDir, "nitro"),
    (env.presetsDir, "nitro"),
    ("\x00raw:", "raw"),
    ("\x00nitro-wasm:", "wasm"),
    ("\x00", "virtual") ]

/-- The per-segment effect of the global replace
`route.replace(/:([^/]+)/g, "_$1")`.  A match of `:([^/]+)` cannot cross
a `/`; within a `/`-free segment the leftmost match starts at the first
`':'` that has at least one following character and (greedily) consumes
the rest of the segment, so exactly that `':'` is turned into `'_'` and
scanning resumes after the segment. -/
def rewriteSeg (seg : List Char) : List Char :=
  match seg.findIdx? (fun c => c = ':') with
  | some i => if i + 1 < seg.length then seg.take i ++ '_' :: seg.drop (i + 1) else seg
  | none => seg

/-- `route.replace(/:([^/]+)/g, "_$1")`: apply the per-segment rewrite to
every `/`-separated segment. -/
def rewriteParams (cs : List Char) : List Char :=
  joinSep '/' ((splitChar '/' cs).map rewriteSeg)

/-- `.replace(/\/[^/]+$/g, "")`: drop a trailing `/`-plus-nonempty-
`/`-free segment, if present. -/
def stripTrailingSeg (cs : List Char) : List Char :=
  let r := cs.reverse
  let seg := r.takeWhile (fun c => c != '/')
  if seg.isEmpty then cs
  else
    match r.drop seg.length with
    | '/' :: rest => rest.reverse
    | _ => cs

/-- Lines 101-105: the route-derived chunk path,
`route.replace(/:([^/]+)/g, "_$1").replace(/\/[^/]+$/g, "") || "/"`. -/
def routeChunkPath (route : String) : String :=
  let p := String.mk (stripTrailingSeg (rewriteParams route.data))
  if p = "" then "/" else p

/-- Lines 98-100: `nitro.options.handlers.find(...) ||
nitro.scannedHandlers.find(...)`, first handler whose module path is a
prefix of `id`. -/
def routeOwner (env : ChunkEnv) (id : String) : Option NitroEventHandler :=
  match env.configuredHandlers.find? (fun h => jsStartsWith id h.handler) with
  | some h => some h
  | none => env.scannedHandlers.find? (fun h => jsStartsWith id h.handler)

/-- Lines 108-118: task-handler ownership (exact id equality), else the
unknown bucket. -/
def taskOrUnknown (env : ChunkEnv) (id : String) : String :=
  if env.tasks.any (fun t => t.2.handler == some id) then "chunks/tasks/[name].mjs"
  else "chunks/_/[name].mjs"

/-- `getChunkName` (lines 90-120). -/
def getChunkName (env : ChunkEnv) (id : String) : String :=
  match (chunkNameRules env).find? (fun p => jsStartsWith id p.1) with
  | some p => "chunks/" ++ p.2 ++ "/[name].mjs"
  | none =>
    match routeOwner env id with
    | some h =>
      if jsTruthyStr h.route then
        "chunks/routes" ++ routeChunkPath (jsOrEmpty h.route) ++ "/[name].mjs"
      else taskOrUnknown env id
    | none => taskOrUnknown env id

/-! ### Lemmas for the chunk classifier. -/

theorem find?_eq_get_of_first {α : Type} (P : α → Bool) (l : List α) :
    ∀ (k : Nat) (hk : k < l.length),
      (∀ (j : Nat) (hj : j < l.length), j < k → P (l.get ⟨j, hj⟩) = false) →
      P (l.get ⟨k, hk⟩) = true → l.find? P = some (l.get ⟨k, hk⟩) := by
  induction l with
  | nil =>
    intro k hk
    exact absurd hk (by simp)
  | cons x xs ih =>
    intro k hk hbefore hmatch
    cases k with
    | zero => exact List.find?_cons_of_pos _ hmatch
    | succ k =>
      have hx : P x = false := hbefore 0 (by simp) (by omega)
      rw [List.find?_cons_of_neg _ (by simp [hx])]
      exact ih k (Nat.lt_of_succ_lt_succ (by simpa using hk))
        (fun j hj hlt => hbefore (j + 1) (by simpa using Nat.succ_lt_succ hj) (by omega))
        hmatch

theorem takeWhile_append_stop {q : Char → Bool} (t rest : List Char) (d : Char)
    (ht : ∀ c ∈ t, q c = true) (hd : q d = false) :
    (t ++ d :: rest).takeWhile q = t := by
  induction t with
  | nil => simp [List.takeWhile_cons, hd]
  | cons a t ih =>
    have ha : q a = true := ht a (by simp)
    simp [List.takeWhile_cons, ha, ih fun c hc => ht c (by simp [hc])]

theorem stripTrailingSeg_append (pre seg : List Char) (hne : seg ≠ [])
    (hnos : ∀ c ∈ seg, c ≠ '/') : stripTrailingSeg (pre ++ '/' :: seg) = pre := by
  unfold stripTrailingSeg
  have hrev : (pre ++ '/' :: seg).reverse = seg.reverse ++ '/' :: pre.reverse := by
    simp
  rw [hrev]
  dsimp only
  have htw : (seg.reverse ++ '/' :: pre.reverse).takeWhile (fun c => c != '/')
      = seg.reverse := by
    apply takeWhile_append_stop
    · intro c hc
      have := hnos c (List.mem_reverse.mp hc)
      simp [this]
    · simp
  rw [htw]
  have hie : seg.reverse.isEmpty = false := by
    cases hseg : seg.reverse with
    | nil => exact absurd (by simpa using congrArg List.reverse hseg) hne
    | cons a t => rfl
  rw [hie]
  rw [List.drop_left]
  simp

theorem rewriteSeg_param (x : List Char) (hx : x ≠ []) :
    rewriteSeg (':' :: x) = '_' :: x := by
  have h0 : (':' :: x).findIdx? (fun c => c = ':') = some 0 := by
    simp [List.findIdx?_cons]
  unfold rewriteSeg
  rw [h0]
  dsimp only
  have hlen : 0 + 1 < (':' :: x).length := by
    have := List.length_pos.mpr hx
    simp only [List.length_cons]
    omega
  rw [if_pos hlen]
  simp

theorem routes_ne_app (P : String) :
    "chunks/routes" ++ P ++ "/[name].mjs" ≠ "chunks/app/[name].mjs" := by
  intro h
  rw [show ("chunks/routes" : String) = "chunks/r" ++ "outes" from rfl,
    show ("chunks/app/[name].mjs" : String) = "chunks/a" ++ "pp/[name].mjs" from rfl]
      at h
  have hd := congrArg String.data h
  simp only [String.data_append] at hd
  rw [List.append_assoc, List.append_assoc] at hd
  have hlen : ("chunks/r".data).length = ("chunks/a".data).length := by decide
  have hheads := (List.append_inj hd hlen).1
  revert hheads
  decide

theorem startsWith_buildDir_of_server {env : ChunkEnv} {id : String}
    (h : jsStartsWith id (buildServerDir env) = true) :
    jsStartsWith id env.buildDir = true := by
  unfold jsStartsWith at h ⊢
  unfold buildServerDir joinPath at h
  by_cases he : jsEndsWith env.buildDir "/"
  · rw [if_pos he, String.data_append] at h
    exact listStarts_of_append_left h
  · rw [if_neg he, String.data_append, String.data_append, List.append_assoc] at h
    exact listStarts_of_append_left h

/-- C4: the chunk-name function is total and deterministic: every result
has the shape `chunks/<group>/[name].mjs`; the ordered prefix table is
consulted first with first match winning; when no prefix matches, a
route-owning handler with a truthy route yields the route-derived
group, otherwise the task-ownership/unknown cascade decides; route
parameter segments `:x` are rewritten to `_x` and the trailing segment
is stripped (root `/` when nothing remains). -/
theorem C4_chunk_name_total_and_ordered (env : ChunkEnv) (id : String) :
    (∃ g, getChunkName env id = "chunks/" ++ g ++ "/[name].mjs")
    ∧ (∀ (k : Nat) (hk : k < (chunkNameRules env).length),
        (∀ (j : Nat) (hj : j < (chunkNameRules env).length), j < k →
          jsStartsWith id ((chunkNameRules env).get ⟨j, hj⟩).1 = false) →
        jsStartsWith id ((chunkNameRules env).get ⟨k, hk⟩).1 = true →
        getChunkName env id
          = "chunks/" ++ ((chunkNameRules env).get ⟨k, hk⟩).2 ++ "/[name].mjs")
    ∧ ((∀ r ∈ chunkNameRules env, jsStartsWith id r.1 = false) →
        (∀ h, routeOwner env id = some h → ∀ rt, h.route = some rt → rt ≠ "" →
          getChunkName env id
            = "chunks/routes" ++ routeChunkPath rt ++ "/[name].mjs")
        ∧ ((match routeOwner env id with
            | some h => jsTruthyStr h.route = false
            | none => True) →
          getChunkName env id = taskOrUnknown env id)
        ∧ ((env.tasks.any fun t => t.2.handler == some id) = true →
            taskOrUnknown env id = "chunks/tasks/[name].mjs")
        ∧ ((env.tasks.any fun t => t.2.handler == some id) = false →
            taskOrUnknown env id = "chunks/_/[name].mjs"))
    ∧ (∀ x : List Char, x ≠ [] → rewriteSeg (':' :: x) = '_' :: x)
    ∧ (∀ pre seg : List Char, seg ≠ [] → (∀ c ∈ seg, c ≠ '/') →
        stripTrailingSeg (pre ++ '/' :: seg) = pre) := by
  refine ⟨?_, ?_, ?_, rewriteSeg_param, stripTrailingSeg_append⟩
  · cases hf : (chunkNameRules env).find? (fun p => jsStartsWith id p.1) with
    | some p =>
      refine ⟨p.2, ?_⟩
      unfold getChunkName
      rw [hf]
    | none =>
      cases ho : routeOwner env id with
      | some hh =>
        by_cases hr : jsTruthyStr hh.route = true
        · refine ⟨"routes" ++ routeChunkPath (jsOrEmpty hh.route), ?_⟩
          unfold getChunkName
          rw [hf, ho]
          dsimp only
          rw [if_pos hr]
          rw [show ("chunks/routes" : String) = "chunks/" ++ "routes" from rfl]
          simp only [String.append_assoc]
        · refine ⟨if (env.tasks.any fun t => t.2.handler == some id) then "tasks"
            else "_", ?_⟩
          unfold getChunkName taskOrUnknown
          rw [hf, ho]
          dsimp only
          rw [if_neg hr]
          split_ifs <;> rfl
      | none =>
        refine ⟨if (env.tasks.any fun t => t.2.handler == some id) then "tasks"
          else "_", ?_⟩
        unfold getChunkName taskOrUnknown
        rw [hf, ho]
        dsimp only
        split_ifs <;> rfl
  · intro k hk hbefore hmatch
    have hfind := find?_eq_get_of_first (fun p => jsStartsWith id p.1)
      (chunkNameRules env) k hk hbefore hmatch
    unfold getChunkName
    rw [hfind]
  · intro hnone
    have hf : (chunkNameRules env).find? (fun p => jsStartsWith id p.1) = none :=
      List.find?_eq_none.mpr fun x hx => by simp [hnone x hx]
    refine ⟨?_, ?_, ?_, ?_⟩
    · intro hh hho rt hrt hne
      unfold getChunkName
      rw [hf, hho]
      dsimp only
      have hie : rt.isEmpty = false := by
        cases hie2 : rt.isEmpty
        · rfl
        · exact absurd ((String.isEmpty_iff rt).mp (by simp [hie2])) hne
      rw [if_pos (by simp [jsTruthyStr, hrt, hie]),
        show jsOrEmpty hh.route = rt by simp [jsOrEmpty, hrt]]
    · intro hfalsy
      unfold getChunkName
      rw [hf]
      cases ho : routeOwner env id with
      | some hh =>
        rw [ho] at hfalsy
        dsimp only
        rw [if_neg (by simp [hfalsy])]
      | none => rfl
    · intro ht
      unfold taskOrUnknown
      rw [if_pos ht]
    · intro ht
      unfold taskOrUnknown
      rw [if_neg (by simp [ht])]

def c4Env : ChunkEnv :=
  { buildDir := "/b", runtimeDir := "/rt", presetsDir := "/p"
    configuredHandlers := [], scannedHandlers := [], tasks := [] }

theorem C4_chunk_name_witness :
    (chunkNameRules c4Env).length = 7
    ∧ getChunkName c4Env "/rt/core.mjs" = "chunks/nitro/[name].mjs"
    ∧ rewriteSeg (':' :: ['i', 'd']) = '_' :: ['i', 'd'] := by
  refine ⟨by decide, ?_, ?_⟩
  · have h := (C4_chunk_name_total_and_ordered c4Env "/rt/core.mjs").2.1 2
      (by decide) (by decide) (by decide)
    exact h.trans (by decide)
  · exact (C4_chunk_name_total_and_ordered c4Env "/x").2.2.2.1 ['i', 'd'] (by decide)

def c10Env : ChunkEnv :=
  { buildDir := "/proj/.nitro", runtimeDir := "/rt", presetsDir := "/p"
    configuredHandlers := [], scannedHandlers := [], tasks := [] }

/-- C10: every module path under the server build subdirectory
(`join(buildDir, "dist/server")`) is assigned the `build` chunk group
(the build-directory rule is listed first and first match wins), and
the `app` group is unreachable: no input ever classifies to
`chunks/app/[name].mjs`. -/
theorem C10_server_dir_shadowed (env : ChunkEnv) (id : String) :
    (jsStartsWith id (buildServerDir env) = true →
      getChunkName env id = "chunks/build/[name].mjs")
    ∧ getChunkName env id ≠ "chunks/app/[name].mjs" := by
  have hbuild : jsStartsWith id env.buildDir = true →
      getChunkName env id = "chunks/build/[name].mjs" := by
    intro hb
    unfold getChunkName chunkNameRules
    rw [List.find?_cons_of_pos _ (by simpa using hb)]
    rfl
  constructor
  · intro h
    exact hbuild (startsWith_buildDir_of_server h)
  · by_cases hb : jsStartsWith id env.buildDir = true
    · rw [hbuild hb]
      decide
    · have hb0 : jsStartsWith id env.buildDir = false := by
        cases hx : jsStartsWith id env.buildDir
        · rfl
        · exact absurd hx hb
      have hbs : jsStartsWith id (buildServerDir env) = false := by
        cases hx : jsStartsWith id (buildServerDir env)
        · rfl
        · exact absurd (startsWith_buildDir_of_server hx) hb
      unfold getChunkName chunkNameRules
      rw [List.find?_cons_of_neg _ (by simp [hb0]),
        List.find?_cons_of_neg _ (by simp [hbs])]
      cases hf : List.find? (fun p => jsStartsWith id p.1)
          [(env.runtimeDir, "nitro"), (env.presetsDir, "nitro"),
            ("\x00raw:", "raw"), ("\x00nitro-wasm:", "wasm"), ("\x00", "virtual")] with
      | some p =>
        have hp := List.mem_of_find?_eq_some hf
        simp only [List.mem_cons, List.not_mem_nil, or_false] at hp
        rcases hp with rfl | rfl | rfl | rfl | rfl
        · show "chunks/" ++ "nitro" ++ "/[name].mjs" ≠ "chunks/app/[name].mjs"
          decide
        · show "chunks/" ++ "nitro" ++ "/[name].mjs" ≠ "chunks/app/[name].mjs"
          decide
        · show "chunks/" ++ "raw" ++ "/[name].mjs" ≠ "chunks/app/[name].mjs"
          decide
        · show "chunks/" ++ "wasm" ++ "/[name].mjs" ≠ "chunks/app/[name].mjs"
          decide
        · show "chunks/" ++ "virtual" ++ "/[name].mjs" ≠ "chunks/app/[name].mjs"
          decide
      | none =>
        cases ho : routeOwner env id with
        | some hh =>
          by_cases hr : jsTruthyStr hh.route = true
          · dsimp only
            rw [if_pos hr]
            exact routes_ne_app _
          · dsimp only
            rw [if_neg hr]
            unfold taskOrUnknown
            split_ifs <;> decide
        | none =>
          dsimp only
          unfold taskOrUnknown
          split_ifs <;> decide

theorem C10_server_dir_shadowed_witness :
    jsStartsWith "/proj/.nitro/dist/server/chunk.mjs" (buildServerDir c10Env) = true
    ∧ getChunkName c10Env "/proj/.nitro/dist/server/chunk.mjs"
        = "chunks/build/[name].mjs"
    ∧ getChunkName c10Env "/proj/.nitro/dist/server/chunk.mjs"
        ≠ "chunks/app/[name].mjs" :=
  ⟨by decide,
    (C10_server_dir_shadowed c10Env "/proj/.nitro/dist/server/chunk.mjs").1 (by decide),
    (C10_server_dir_shadowed c10Env "/proj/.nitro/dist/server/chunk.mjs").2⟩

/-! ### Strict (no-externals) mode: the `no-externals` plugin's
`resolveId` hook (`src/src/rollup/config.ts`, lines 411-451).

Rollup's primary resolver (`this.resolve`) and exsolve's
`resolveModulePath` are external collaborators: the former is the
`primary` oracle value for the current `(id, importer)` edge, the latter
the `fallback` oracle, which receives the exact argument record the
source constructs so that the theorems pin down which query is issued.
`node:path.isAbsolute` is modelled for posix paths; `pathToFileURL`
prepends `file://` (URL percent-encoding is irrelevant to the claims). -/

/-- What rollup's `this.resolve` returns (when not null). -/
structure ResolvedId where
  id : String
  external : Bool
deriving DecidableEq

/-- The argument record passed to `resolveModulePath` (lines 423-439). -/
structure ResolveQuery where
  moduleId : String
  fromDirs : List String
  suffixes : List String
  extensions : List String
  conditions : List String
deriving DecidableEq

def jsIsAbsolute (p : String) : Bool := jsStartsWith p "/"

def pathToFileURL (p : String) : String := "file://" ++ p

/-- Lines 424-439: the fallback query.  `from` prefers the importer
(as a file URL) ahead of the configured module directories when
the importer path is absolute. -/
def fallbackQuery (dev : Bool) (nodeModulesDirs : List String) (id : String)
    (importer : Option String) : ResolveQuery :=
  { moduleId := id
    fromDirs :=
      match importer with
      | some imp =>
        if jsIsAbsolute imp then pathToFileURL imp :: nodeModulesDirs
        else nodeModulesDirs
      | none => nodeModulesDirs
    suffixes := ["", "/index"]
    extensions := [".mjs", ".cjs", ".js", ".mts", ".cts", ".ts", ".json"]
    conditions :=
      ["default", if dev then "development" else "production", "node", "import",
        "require"] }

/-- A hexadecimal digit character (lower case), for `\u00XX` escapes. -/
def hexDigit (n : Nat) : Char :=
  if n < 10 then Char.ofNat ('0'.toNat + n) else Char.ofNat ('a'.toNat + (n - 10))

/-- `JSON.stringify` escaping of one character. -/
def jsonEscapeChar (c : Char) : List Char :=
  if c = '"' then ['\\', '"']
  else if c = '\\' then ['\\', '\\']
  else if c = '\x08' then ['\\', 'b']
  else if c = '\x09' then ['\\', 't']
  else if c = '\x0a' then ['\\', 'n']
  else if c = '\x0c' then ['\\', 'f']
  else if c = '\x0d' then ['\\', 'r']
  else if c.toNat < 32 then
    ['\\', 'u', '0', '0', hexDigit (c.toNat / 16), hexDigit (c.toNat % 16)]
  else [c]

/-- `JSON.stringify` of a string value. -/
def jsonQuote (s : String) : String :=
  "\"" ++ String.mk ((s.data.map jsonEscapeChar).flatten) ++ "\""

/-- The error message of lines 444-448:
`Cannot resolve ${JSON.stringify(id)} from ${JSON.stringify(importer)}
and externals are not allowed!` (an absent importer stringifies to the
bare word `undefined`). -/
def errMsg (id : String) (importer : Option String) : String :=
  "Cannot resolve " ++ jsonQuote id ++ " from "
    ++ (match importer with | some s => jsonQuote s | none => "undefined")
    ++ " and externals are not allowed!"

/-- The `resolveId` hook of the `no-externals` plugin (lines 414-450):
returns `.ok (some r)` when the hook resolves the id itself, `.ok none`
when it defers (returns `undefined`), and `.error` when it throws. -/
def noExternalsResolveId (nodeEnabled dev : Bool)
    (builtins nodeModulesDirs : List String) (primary : Option ResolvedId)
    (fallback : ResolveQuery → Option String) (id : String)
    (importer : Option String) : Except String (Option ResolvedId) :=
  if nodeEnabled && (jsStartsWith id "node:" || builtins.contains id) then
    .ok (some { id := id, external := true })
  else
    match primary with
    | none =>
      match fallback (fallbackQuery dev nodeModulesDirs id importer) with
      | some rid => .ok (some { id := rid, external := false })
      | none => .error (errMsg id importer)
    | some resolved =>
      if resolved.external && !(jsEndsWith id ".wasm") then .error (errMsg id importer)
      else .ok none

theorem flatten_map_jsonEscape {l : List Char}
    (h : ∀ c ∈ l, jsonEscapeChar c = [c]) :
    (l.map jsonEscapeChar).flatten = l := by
  induction l with
  | nil => rfl
  | cons c cs ih => simp [h c (by simp), ih fun d hd => h d (by simp [hd])]

theorem jsonQuote_plain {s : String} (h : ∀ c ∈ s.data, jsonEscapeChar c = [c]) :
    jsonQuote s = "\"" ++ s ++ "\"" := by
  unfold jsonQuote
  rw [flatten_map_jsonEscape h]

/-- C3: in strict mode, for an import edge whose id is not handled by the
runtime-builtin short-circuit: when the primary resolver fails, the
outcome is decided entirely by the fallback resolver applied to the
exact query the source builds (suffixes `""`/`"/index"`, the fixed
extension list, and search directories preferring the importer when it
is an absolute path) — a fallback hit is inlined, a fallback miss is a
thrown error; when the primary resolution is flagged external and the
id does not end in `.wasm`, the hook throws as well; any id the hook
resolves by itself comes verbatim from the fallback resolver (no silent
substitution); and the thrown message names both the module id and
the importer verbatim. -/
theorem C3_strict_mode_fatal_unresolved (nodeEnabled dev : Bool)
    (builtins nodeModulesDirs : List String) (primary : Option ResolvedId)
    (fallback : ResolveQuery → Option String) (id : String)
    (importer : Option String)
    (hnb : (nodeEnabled && (jsStartsWith id "node:" || builtins.contains id))
      = false) :
    (primary = none →
      noExternalsResolveId nodeEnabled dev builtins nodeModulesDirs primary
          fallback id importer
        = match fallback (fallbackQuery dev nodeModulesDirs id importer) with
          | some rid => .ok (some { id := rid, external := false })
          | none => .error (errMsg id importer))
    ∧ (∀ r, primary = some r → r.external = true → jsEndsWith id ".wasm" = false →
        noExternalsResolveId nodeEnabled dev builtins nodeModulesDirs primary
            fallback id importer = .error (errMsg id importer))
    ∧ ((fallbackQuery dev nodeModulesDirs id importer).suffixes = ["", "/index"]
        ∧ (fallbackQuery dev nodeModulesDirs id importer).extensions
            = [".mjs", ".cjs", ".js", ".mts", ".cts", ".ts", ".json"]
        ∧ (∀ imp, importer = some imp → jsIsAbsolute imp = true →
            (fallbackQuery dev nodeModulesDirs id importer).fromDirs
              = pathToFileURL imp :: nodeModulesDirs)
        ∧ (∀ imp, importer = some imp → jsIsAbsolute imp = false →
            (fallbackQuery dev nodeModulesDirs id importer).fromDirs
              = nodeModulesDirs))
    ∧ (∀ rid,
        noExternalsResolveId nodeEnabled dev builtins nodeModulesDirs primary
            fallback id importer = .ok (some rid) →
        ∃ f, fallback (fallbackQuery dev nodeModulesDirs id importer) = some f
          ∧ rid = { id := f, external := false })
    ∧ (∀ imp, importer = some imp →
        (∀ c ∈ id.data, jsonEscapeChar c = [c]) →
        (∀ c ∈ imp.data, jsonEscapeChar c = [c]) →
        errMsg id importer
          = "Cannot resolve " ++ ("\"" ++ id ++ "\"") ++ " from "
            ++ ("\"" ++ imp ++ "\"") ++ " and externals are not allowed!") := by
  have hguard : noExternalsResolveId nodeEnabled dev builtins nodeModulesDirs
      primary fallback id importer
      = match primary with
        | none =>
          match fallback (fallbackQuery dev nodeModulesDirs id importer) with
          | some rid => .ok (some { id := rid, external := false })
          | none => .error (errMsg id importer)
        | some resolved =>
          if resolved.external && !(jsEndsWith id ".wasm") then
            .error (errMsg id importer)
          else .ok none := by
    unfold noExternalsResolveId
    rw [hnb]
    rfl
  refine ⟨?_, ?_, ⟨rfl, rfl, ?_, ?_⟩, ?_, ?_⟩
  · intro hp
    rw [hguard, hp]
  · intro r hp hext hwasm
    rw [hguard, hp]
    dsimp only
    rw [if_pos (by simp [hext, hwasm])]
  · intro imp himp habs
    subst himp
    simp [fallbackQuery, habs]
  · intro imp himp habs
    subst himp
    simp [fallbackQuery, habs]
  · intro rid hok
    rw [hguard] at hok
    cases hp : primary with
    | none =>
      rw [hp] at hok
      cases hfb : fallback (fallbackQuery dev nodeModulesDirs id importer) with
      | some f =>
        rw [hfb] at hok
        refine ⟨f, rfl, ?_⟩
        cases hok
        rfl
      | none =>
        rw [hfb] at hok
        cases hok
    | some r =>
      rw [hp] at hok
      dsimp only at hok
      by_cases hc : (r.external && !(jsEndsWith id ".wasm")) = true
      · rw [if_pos hc] at hok
        cases hok
      · rw [if_neg hc] at hok
        cases hok
  · intro imp himp hid himp2
    subst himp
    unfold errMsg
    rw [jsonQuote_plain hid]
    dsimp only
    rw [jsonQuote_plain himp2]

/-- C9: with Node support enabled, an id starting with `node:` or listed
among the Node builtin modules is classified external immediately, for
any primary/fallback oracle — so a builtin import never reaches the
fatal unresolved-module error. -/
theorem C9_builtins_external_immediately (dev : Bool)
    (builtins nodeModulesDirs : List String) (primary : Option ResolvedId)
    (fallback : ResolveQuery → Option String) (id : String)
    (importer : Option String)
    (hb : (jsStartsWith id "node:" || builtins.contains id) = true) :
    noExternalsResolveId true dev builtins nodeModulesDirs primary fallback id
        importer = .ok (some { id := id, external := true }) := by
  unfold noExternalsResolveId
  rw [show (true && (jsStartsWith id "node:" || builtins.contains id)) = true by
    rw [Bool.true_and]; exact hb]
  rfl

theorem C9_builtins_external_immediately_witness :
    (jsStartsWith "node:fs" "node:" || (["fs", "path"] : List String).contains
      "node:fs") = true
    ∧ noExternalsResolveId true false ["fs", "path"] ["/nm"] none (fun _ => none)
        "node:fs" (some "/app/index.mjs")
      = .ok (some { id := "node:fs", external := true }) :=
  ⟨by decide,
    C9_builtins_external_immediately false ["fs", "path"] ["/nm"] none
      (fun _ => none) "node:fs" (some "/app/index.mjs") (by decide)⟩

theorem C3_strict_mode_fatal_unresolved_witness :
    ((false && (jsStartsWith "left-pad" "node:"
        || (["fs"] : List String).contains "left-pad")) = false)
    ∧ noExternalsResolveId false false ["fs"] ["/app/node_modules"] none
        (fun _ => none) "left-pad" (some "/app/index.mjs")
      = .error (errMsg "left-pad" (some "/app/index.mjs"))
    ∧ errMsg "left-pad" (some "/app/index.mjs")
      = "Cannot resolve \"left-pad\" from \"/app/index.mjs\" and externals are not allowed!" := by
  refine ⟨by decide, ?_, ?_⟩
  · have h := (C3_strict_mode_fatal_unresolved false false ["fs"]
      ["/app/node_modules"] none (fun _ => none) "left-pad"
      (some "/app/index.mjs") (by decide)).1 rfl
    exact h
  · have h := (C3_strict_mode_fatal_unresolved false false ["fs"]
      ["/app/node_modules"] none (fun _ => none) "left-pad"
      (some "/app/index.mjs") (by decide)).2.2.2.2 "/app/index.mjs" rfl
      (by decide) (by decide)
    exact h.trans (by decide)

end NitroSpec
